import Mathlib

/-!
Verification of the vault-manager reconciliation engine and its three
object-kind modules (secrets engines, policies, audit devices).

The Go source under src/ is embedded shallowly: each module's `Apply`
becomes a pure function from its decoded configuration, the dry-run flag,
the configured instance-address list, and oracles standing for the remote
API, to the list of remote calls it issues (effects become data).
Code of the repository that is not under src/ (the `pkg/vault` helpers,
`pkg/utils.NewBoundedWaitGroup`, the instance registry) is modelled from
the spec, as marked on each such definition.
-/

set_option maxRecDepth 4000
set_option maxHeartbeats 1000000

/-- One target server, `toplevel/instance.Instance` (only the `Address`
field is used by the modules under src/). -/
structure Instance where
  Address : String
deriving DecidableEq

namespace api

/-- Fields of `hashicorp/vault/api.MountOutput` read by the secretsengine
module (`Type`, `Description`, `Options`); Go's `Type` field is spelled
`Type_` because `Type` is reserved in Lean. Go string maps are embedded as
association lists. -/
structure MountOutput where
  Type_ : String
  Description : String
  Options : List (String × String)
deriving DecidableEq

/-- Fields of `hashicorp/vault/api.Audit` read by the audit module. -/
structure Audit where
  Path : String
  Type_ : String
  Description : String
  Options : List (String × String)
deriving DecidableEq

end api

namespace secretsengine

/-- The secretsengine `entry` struct (secretsengine.go lines 19-25). -/
structure entry where
  Path : String
  Type_ : String
  Instance : Instance
  Description : String
  Options : List (String × String)
deriving DecidableEq

end secretsengine

namespace policy

/-- The policy `entry` struct (policy package, secretsengine.go lines 194-200). -/
structure entry where
  Name : String
  Rules : String
  Type_ : String
  Instance : Instance
  Description : String
deriving DecidableEq

end policy

namespace audit

/-- The audit `entry` struct (src/unnamed/part_000 lines 15-21). -/
structure entry where
  Path : String
  Type_ : String
  Description : String
  Instance : Instance
  Options : List (String × String)
deriving DecidableEq

end audit

namespace vault

/-- A dynamic value passed to an `Equals(i interface{})` method: one of the
three concrete entry kinds satisfying the `vault.Item` interface, or any
other value (`other`, with an opaque payload string standing for the rest
of Go's value universe). -/
inductive Item where
  | secretsengine : secretsengine.entry → Item
  | policy : policy.entry → Item
  | audit : audit.entry → Item
  | other : String → Item
deriving DecidableEq

/-- Kind test used to state cross-kind claims about `Equals`. -/
def Item.isSecretsEngine : Item → Bool
  | .secretsengine _ => true
  | _ => false

/-- Kind test used to state cross-kind claims about `Equals`. -/
def Item.isPolicy : Item → Bool
  | .policy _ => true
  | _ => false

/-- Kind test used to state cross-kind claims about `Equals`. -/
def Item.isAudit : Item → Bool
  | .audit _ => true
  | _ => false

/-- Modelled from the spec: `vault.EqualPathNames` lives in `pkg/vault`,
which is absent from src/. The spec treats mount paths as opaque join
keys, so path-name equality is modelled as string equality. -/
def EqualPathNames (x y : String) : Bool :=
  x == y

/-- Modelled from the spec: `vault.OptionsEqual` lives in `pkg/vault`,
which is absent from src/. Spec section 4.1: an options map must match
under a normalized comparison treating declared string options and
observed string options as equivalent; both sides reaching it under src/
are string-valued maps, so it is key-set and value equality of the two
maps (order-insensitive on the association lists embedding Go maps). -/
def OptionsEqual (a b : List (String × String)) : Bool :=
  a.all (fun kv => b.lookup kv.1 == some kv.2) &&
    b.all (fun kv => a.lookup kv.1 == some kv.2)

/-- Modelled from the spec: `vault.DiffItems` lives in `pkg/vault`, which
is absent from src/. Spec section 4.2: join `desired` and `observed` on
`Key`; a desired item with no observed key goes to the first component
(to-be-written, in desired order); an observed item with no desired key
goes to the second component (to-be-deleted, in observed order); a desired
item whose observed partner is not `Equals` goes to the third component
(to-be-updated, the desired item, in desired order). The Go signature
takes `[]vault.Item` with dynamic `Key`/`Equals` dispatch; since every
call site passes items of a single kind, the embedding is generic over the
item type with the key and equality functions passed explicitly. Returns
`(toBeWritten, toBeDeleted, toBeUpdated)` matching the order of results
at the call sites (secretsengine.go line 107). -/
def DiffItems {α : Type} (key : α → String) (eqFn : α → α → Bool)
    (desired observed : List α) : List α × List α × List α :=
  (desired.filter (fun d => !(observed.any (fun o => key o == key d))),
   observed.filter (fun o => !(desired.any (fun d => key d == key o))),
   desired.filter (fun d =>
     match observed.find? (fun o => key o == key d) with
     | some o => !(eqFn d o)
     | none => false))

/-- Number of items in `l` whose key is `k`; used to state that a key
appears exactly once (or not at all) in a diff component. -/
def keyCount {α : Type} (key : α → String) (k : String) (l : List α) : Nat :=
  l.countP (fun x => key x == k)

end vault

namespace secretsengine

/-- Method `entry.Key` (secretsengine.go lines 29-31). -/
def entry.Key (e : entry) : String :=
  e.Path

/-- Method `entry.KeyForDescription` (secretsengine.go lines 45-47). -/
def entry.KeyForDescription (e : entry) : String :=
  e.Description

/-- Method `entry.KeyForType` (secretsengine.go lines 49-51). -/
def entry.KeyForType (e : entry) : String :=
  e.Type_

/-- Method `entry.ambiguousOptions` (secretsengine.go lines 53-59): copies
the string-valued options map into a `map[string]interface{}`; the values
stay the same strings, so the embedding is the identity on the
association list. -/
def entry.ambiguousOptions (e : entry) : List (String × String) :=
  e.Options

/-- Method `entry.Equals` (secretsengine.go lines 33-43): a type assertion
to the concrete entry type (false on any other kind), then path, type,
description, and normalized-options comparison. -/
def entry.Equals (e : entry) (i : vault.Item) : Bool :=
  match i with
  | .secretsengine o =>
      vault.EqualPathNames e.Path o.Path && e.Type_ == o.Type_ &&
        e.Description == o.Description &&
        vault.OptionsEqual e.ambiguousOptions o.ambiguousOptions
  | _ => false

/-- Function `isDefaultMount` (secretsengine.go lines 151-161). -/
def isDefaultMount (path : String) : Bool :=
  path.startsWith "cubbyhole/" || path.startsWith "identity/" ||
    path.startsWith "secret/" || path.startsWith "sys/"

end secretsengine

namespace policy

/-- Method `entry.Key` (policy package). -/
def entry.Key (e : entry) : String :=
  e.Name

/-- Method `entry.KeyForType` (policy package). -/
def entry.KeyForType (e : entry) : String :=
  e.Type_

/-- Method `entry.KeyForDescription` (policy package). -/
def entry.KeyForDescription (e : entry) : String :=
  e.Description

/-- Method `entry.Equals` (policy package, secretsengine.go lines
216-223): a type assertion to the concrete entry type (false on any other
kind), then exact name and rules-body string comparison. -/
def entry.Equals (e : entry) (i : vault.Item) : Bool :=
  match i with
  | .policy o => e.Name == o.Name && e.Rules == o.Rules
  | _ => false

/-- Function `isDefaultPolicy` (policy package, secretsengine.go lines
307-309). -/
def isDefaultPolicy (name : String) : Bool :=
  name == "root" || name == "default"

end policy

namespace audit

/-- Method `entry.Key` (part_000 lines 25-27). -/
def entry.Key (e : entry) : String :=
  e.Path

/-- Method `entry.KeyForType` (part_000 lines 29-31). -/
def entry.KeyForType (e : entry) : String :=
  e.Type_

/-- Method `entry.KeyForDescription` (part_000 lines 33-35). -/
def entry.KeyForDescription (e : entry) : String :=
  e.Description

/-- Method `entry.ambiguousOptions` (part_000 lines 49-55), identity on
the string-valued association list as for the secretsengine entry. -/
def entry.ambiguousOptions (e : entry) : List (String × String) :=
  e.Options

/-- Method `entry.Equals` (part_000 lines 37-47). -/
def entry.Equals (e : entry) (i : vault.Item) : Bool :=
  match i with
  | .audit o =>
      vault.EqualPathNames e.Path o.Path && e.Type_ == o.Type_ &&
        e.Description == o.Description &&
        vault.OptionsEqual e.ambiguousOptions o.ambiguousOptions
  | _ => false

end audit

/-- First-occurrence deduplication of a list of addresses: the order in
which the per-address "fetched already?" map checks of the modules admit
new keys (`if _, exists := m[addr]; !exists` inside a `for _, e := range
entries` loop). -/
def firstOccurrences (xs : List String) : List String :=
  xs.foldl (fun acc a => if a ∈ acc then acc else acc ++ [a]) []

/-- Modelled from the spec: the decode step `yaml.Unmarshal(entriesBytes,
&entries)` is external configuration parsing (spec section 1, out of
scope); its outcome is passed to each `Apply` as an `Except` value, with
`.error` standing for a failed decode. This predicate reads off whether
the decode failed. -/
def decodeFailed {α : Type} : Except String α → Bool
  | .error _ => true
  | .ok _ => false

namespace secretsengine

/-- Remote calls the secretsengine module can issue against an instance.
Log statements are effect-free and not modelled. -/
inductive Event where
  | listSecretsEngines (addr : String)
  | enableSecretsEngine (addr path type_ descr : String)
      (options : List (String × String))
  | updateSecretsEngine (addr path descr : String)
  | disableSecretsEngine (addr path : String)
deriving DecidableEq

/-- The instance address an event targets. -/
def Event.addr : Event → String
  | .listSecretsEngines a => a
  | .enableSecretsEngine a _ _ _ _ => a
  | .updateSecretsEngine a _ _ => a
  | .disableSecretsEngine a _ => a

/-- True for calls that mutate the target instance (enable, update,
disable); the list call is a read. -/
def Event.isMutation : Event → Bool
  | .listSecretsEngines _ => false
  | _ => true

/-- The `instancesToDesiredEngines` grouping (secretsengine.go lines
79-82) read back at one address: the desired entries whose instance
address is `a`, in input order. -/
def desiredFor (entries : List entry) (a : String) : List entry :=
  entries.filter (fun e => e.Instance.Address == a)

/-- The set of addresses the fetch loop (secretsengine.go lines 84-90)
queries: each entry's address, first occurrence only. -/
def fetchAddrs (entries : List entry) : List String :=
  firstOccurrences (entries.map (fun e => e.Instance.Address))

/-- The `instancesToExistingEngines` map (secretsengine.go lines 92-103)
read back at one address: entries built from the raw engine map for
fetched addresses (the `Instance` field is left at its zero value, as in
the source), empty for an address never fetched. Go map iteration order
over the raw engine map is unspecified; the oracle's list order stands
for one such order, and no claim below depends on it. -/
def existingFor (fetched : List String)
    (listSecretsEngines : String → List (String × api.MountOutput))
    (a : String) : List entry :=
  if a ∈ fetched then
    (listSecretsEngines a).map (fun pm =>
      { Path := pm.1, Type_ := pm.2.Type_, Instance := { Address := "" },
        Description := pm.2.Description, Options := pm.2.Options })
  else []

/-- The `vault.DiffItems` call of the secretsengine module
(secretsengine.go lines 107-108): dynamic dispatch specialises `Key` and
`Equals` to the secretsengine entry kind. -/
def diffFor (desired observed : List entry) :
    List entry × List entry × List entry :=
  vault.DiffItems entry.Key (fun d o => d.Equals (vault.Item.secretsengine o))
    desired observed

/-- One iteration of the reconcile loop (secretsengine.go lines 106-148)
for address `a`: dry-run only logs; live mode enables `toBeWritten`, then
updates `toBeUpdated`, then disables the non-default part of
`toBeDeleted`. -/
def reconcileInstance (desired observed : List entry) (dryRun : Bool)
    (a : String) : List Event :=
  let diff := diffFor desired observed
  if dryRun then []
  else
    diff.1.map (fun e =>
        Event.enableSecretsEngine a e.Path e.Type_ e.Description e.Options) ++
      diff.2.2.map (fun e => Event.updateSecretsEngine a e.Path e.Description) ++
      (diff.2.1.filter (fun e => !isDefaultMount e.Path)).map
        (fun e => Event.disableSecretsEngine a e.Path)

/-- The body of `config.Apply` after a successful decode (secretsengine.go
lines 79-148): fetch each desired address once, then reconcile every
configured instance address. -/
def applyEntries (entries : List entry) (dryRun : Bool)
    (instanceAddresses : List String)
    (listSecretsEngines : String → List (String × api.MountOutput)) :
    List Event :=
  let fetched := fetchAddrs entries
  fetched.map Event.listSecretsEngines ++
    (instanceAddresses.map (fun a =>
        reconcileInstance (desiredFor entries a)
          (existingFor fetched listSecretsEngines a) dryRun a)).flatten

/-- Method `config.Apply` (secretsengine.go lines 73-149): a decode
failure is process-fatal (`log.Fatal`), embedded as `none`; otherwise the
trace of issued remote calls. -/
def Apply (decoded : Except String (List entry)) (dryRun : Bool)
    (instanceAddresses : List String)
    (listSecretsEngines : String → List (String × api.MountOutput)) :
    Option (List Event) :=
  match decoded with
  | .error _ => none
  | .ok entries => some (applyEntries entries dryRun instanceAddresses listSecretsEngines)

end secretsengine

namespace policy

/-- Remote calls the policy module can issue against an instance. -/
inductive Event where
  | listVaultPolicies (addr : String)
  | getVaultPolicy (addr name : String)
  | putVaultPolicy (addr name rules : String)
  | deleteVaultPolicy (addr name : String)
deriving DecidableEq

/-- The instance address an event targets. -/
def Event.addr : Event → String
  | .listVaultPolicies a => a
  | .getVaultPolicy a _ => a
  | .putVaultPolicy a _ _ => a
  | .deleteVaultPolicy a _ => a

/-- True for calls that mutate the target instance (put, delete); list
and get are reads. -/
def Event.isMutation : Event → Bool
  | .putVaultPolicy _ _ _ => true
  | .deleteVaultPolicy _ _ => true
  | _ => false

/-- The `instancesToDesiredPolicies` grouping read back at one address. -/
def desiredFor (entries : List entry) (a : String) : List entry :=
  entries.filter (fun e => e.Instance.Address == a)

/-- Addresses queried by the policy-name fetch loop, first occurrence
only. -/
def fetchAddrs (entries : List entry) : List String :=
  firstOccurrences (entries.map (fun e => e.Instance.Address))

/-- The `instancesToExistingPolicies` map read back at one address: one
entry per listed policy name with its fetched body (only `Name` and
`Rules` are set, as in the source), empty for an address never fetched.
The per-name fetches run inside the bounded fan-out and their completion
order is unspecified; the list-order embedding stands for one
interleaving, and no claim below depends on it. -/
def existingFor (fetched : List String)
    (listVaultPolicies : String → List String)
    (getVaultPolicy : String → String → String) (a : String) : List entry :=
  if a ∈ fetched then
    (listVaultPolicies a).map (fun n =>
      { Name := n, Rules := getVaultPolicy a n, Type_ := "",
        Instance := { Address := "" }, Description := "" })
  else []

/-- The `vault.DiffItems` call of the policy module. -/
def diffFor (desired observed : List entry) :
    List entry × List entry × List entry :=
  vault.DiffItems entry.Key (fun d o => d.Equals (vault.Item.policy o))
    desired observed

/-- One iteration of the reconcile loop for address `a`. The source binds
`toBeWritten, toBeDeleted, _ := vault.DiffItems(...)`: the to-be-updated
component is discarded. Dry-run only logs; live mode puts `toBeWritten`,
then deletes the non-default part of `toBeDeleted`. -/
def reconcileInstance (desired observed : List entry) (dryRun : Bool)
    (a : String) : List Event :=
  let diff := diffFor desired observed
  if dryRun then []
  else
    diff.1.map (fun e => Event.putVaultPolicy a e.Name e.Rules) ++
      (diff.2.1.filter (fun e => !isDefaultPolicy e.Name)).map
        (fun e => Event.deleteVaultPolicy a e.Name)

/-- The body of the policy `config.Apply` after a successful decode:
list the policy names of each desired address once, fetch each listed
body through the bounded fan-out, then reconcile every configured
instance address. -/
def applyEntries (entries : List entry) (dryRun : Bool)
    (instanceAddresses : List String)
    (listVaultPolicies : String → List String)
    (getVaultPolicy : String → String → String) : List Event :=
  let fetched := fetchAddrs entries
  fetched.map Event.listVaultPolicies ++
    (fetched.map (fun a =>
        (listVaultPolicies a).map (fun n => Event.getVaultPolicy a n))).flatten ++
    (instanceAddresses.map (fun a =>
        reconcileInstance (desiredFor entries a)
          (existingFor fetched listVaultPolicies getVaultPolicy a) dryRun a)).flatten

/-- Method `config.Apply` of the policy module: decode failure is
process-fatal (`none`), otherwise the trace of issued remote calls. -/
def Apply (decoded : Except String (List entry)) (dryRun : Bool)
    (instanceAddresses : List String)
    (listVaultPolicies : String → List String)
    (getVaultPolicy : String → String → String) : Option (List Event) :=
  match decoded with
  | .error _ => none
  | .ok entries =>
      some (applyEntries entries dryRun instanceAddresses listVaultPolicies getVaultPolicy)

end policy

namespace audit

/-- Remote calls and registry marks the audit module can issue.
`addInvalid` is the `vault.AddInvalid(instance)` registry mark; the
closing `vault.RemoveInstanceFromReconciliation()` touches no instance
and is not modelled. -/
inductive Event where
  | listAuditDevices (addr : String)
  | enableAuditDevice (addr path type_ descr : String)
      (options : List (String × String))
  | disableAuditDevice (addr path : String)
  | addInvalid (addr : String)
deriving DecidableEq

/-- The instance address an event concerns. -/
def Event.addr : Event → String
  | .listAuditDevices a => a
  | .enableAuditDevice a _ _ _ _ => a
  | .disableAuditDevice a _ => a
  | .addInvalid a => a

/-- True for calls that mutate the target instance (enable, disable);
the list call is a read and `addInvalid` is a local registry mark. -/
def Event.isMutation : Event → Bool
  | .enableAuditDevice _ _ _ _ _ => true
  | .disableAuditDevice _ _ => true
  | _ => false

/-- The `instancesToDesiredAudits` grouping (part_000 lines 72-75) read
back at one address. -/
def desiredFor (entries : List entry) (a : String) : List entry :=
  entries.filter (fun e => e.Instance.Address == a)

/-- The `existingAduits` list built from a successful `ListAuditDevices`
result (part_000 lines 87-95); Go map iteration order is unspecified, the
oracle's list order stands for one such order. -/
def existingOf (devices : List api.Audit) : List entry :=
  devices.map (fun d =>
    { Path := d.Path, Type_ := d.Type_, Description := d.Description,
      Instance := { Address := "" }, Options := d.Options })

/-- The `vault.DiffItems` call of the audit module (part_000 lines
97-98); as in the policy module the to-be-updated component is bound to
`_` and discarded. -/
def diffFor (desired observed : List entry) :
    List entry × List entry × List entry :=
  vault.DiffItems entry.Key (fun d o => d.Equals (vault.Item.audit o))
    desired observed

/-- One enable attempt in the live branch (part_000 lines 115-130): the
call is always issued; a failure adds the registry mark and `continue`s to
the next item (the `continue` is the last statement of the loop body, so
it skips nothing further). -/
def enableSeg (enableErr : String → String → Bool) (a : String)
    (e : entry) : List Event :=
  Event.enableAuditDevice a e.Path e.Type_ e.Description e.Options ::
    (if enableErr a e.Path then [Event.addInvalid a] else [])

/-- One disable attempt in the live branch (part_000 lines 131-142): no
default/protected filtering occurs; failures add the registry mark and
move to the next item. -/
def disableSeg (disableErr : String → String → Bool) (a : String)
    (e : entry) : List Event :=
  Event.disableAuditDevice a e.Path ::
    (if disableErr a e.Path then [Event.addInvalid a] else [])

/-- One iteration of the per-instance loop (part_000 lines 77-144):
list the instance's audit devices (also in dry-run); a fetch failure adds
the registry mark and `continue`s to the next instance; otherwise diff,
and in live mode attempt every enable then every disable. -/
def applyInstance (desired : List entry) (dryRun : Bool) (a : String)
    (listAuditDevices : String → Option (List api.Audit))
    (enableErr disableErr : String → String → Bool) : List Event :=
  Event.listAuditDevices a ::
    match listAuditDevices a with
    | none => [Event.addInvalid a]
    | some devices =>
      let diff := diffFor desired (existingOf devices)
      if dryRun then []
      else
        (diff.1.map (enableSeg enableErr a)).flatten ++
          (diff.2.1.map (disableSeg disableErr a)).flatten

/-- The body of the audit `config.Apply` after a successful decode: the
per-instance loop over every configured address (`for instance := range
vault.InstanceAddresses`; map key order is unspecified, the list order
stands for one such order). -/
def applyEntries (entries : List entry) (dryRun : Bool)
    (instanceAddresses : List String)
    (listAuditDevices : String → Option (List api.Audit))
    (enableErr disableErr : String → String → Bool) : List Event :=
  (instanceAddresses.map (fun a =>
      applyInstance (desiredFor entries a) dryRun a listAuditDevices
        enableErr disableErr)).flatten

/-- Method `config.Apply` of the audit module (part_000 lines 67-148):
decode failure is process-fatal (`none`), otherwise the trace of issued
remote calls and registry marks. -/
def Apply (decoded : Except String (List entry)) (dryRun : Bool)
    (instanceAddresses : List String)
    (listAuditDevices : String → Option (List api.Audit))
    (enableErr disableErr : String → String → Bool) :
    Option (List Event) :=
  match decoded with
  | .error _ => none
  | .ok entries =>
      some (applyEntries entries dryRun instanceAddresses listAuditDevices
        enableErr disableErr)

end audit

namespace utils

/-- Operations observable on the bounded worker pool. -/
inductive PoolOp where
  | acquire
  | release
  | awaitAll
deriving DecidableEq

/-- Modelled from the spec: `utils.NewBoundedWaitGroup` lives in
`pkg/utils`, whose pool source is absent from src/. Spec section 4.3: the
pool is a counting limiter on one sub-task; the state is the number of
acquired-and-unreleased slots. `acquire` proceeds only when fewer than `N`
slots are outstanding, `release` returns a slot, `awaitAll` proceeds only
when every acquired slot has been released. `none` means the operation
blocks in that state. -/
def poolStep (N c : Nat) : PoolOp → Option Nat
  | .acquire => if c < N then some (c + 1) else none
  | .release => if 0 < c then some (c - 1) else none
  | .awaitAll => if c == 0 then some c else none

/-- Run a sequence of pool operations from slot count `c`; `none` when
some operation blocks forever (deadlock), `some` the final slot count of
a completed schedule. -/
def poolRun (N : Nat) (c : Nat) : List PoolOp → Option Nat
  | [] => some c
  | op :: ops =>
      match poolStep N c op with
      | none => none
      | some c2 => poolRun N c2 ops

end utils

/-- Concrete secretsengine entry used by witnesses: a kv engine desired at
instance `a`. -/
def secretsengine.fixE : secretsengine.entry :=
  { Path := "app/", Type_ := "kv", Instance := { Address := "a" },
    Description := "", Options := [] }

/-- Concrete desired policy (name `p`, body `r1`) at instance `a`. -/
def policy.fixD : policy.entry :=
  { Name := "p", Rules := "r1", Type_ := "", Instance := { Address := "a" },
    Description := "" }

/-- The observed counterpart of `policy.fixD` as the policy module
constructs it from a fetched body `r2` (only `Name` and `Rules` set). -/
def policy.fixO : policy.entry :=
  { Name := "p", Rules := "r2", Type_ := "", Instance := { Address := "" },
    Description := "" }

/-- Desired policy `a` for the diff-scenario witness. -/
def policy.fixA : policy.entry :=
  { Name := "a", Rules := "1", Type_ := "", Instance := { Address := "i" },
    Description := "" }

/-- Desired policy `b` (body `2`) for the diff-scenario witness. -/
def policy.fixB : policy.entry :=
  { Name := "b", Rules := "2", Type_ := "", Instance := { Address := "i" },
    Description := "" }

/-- Observed policy `b` with a different body (`9`). -/
def policy.fixB9 : policy.entry :=
  { Name := "b", Rules := "9", Type_ := "", Instance := { Address := "" },
    Description := "" }

/-- Observed policy `c` absent from desired state. -/
def policy.fixC : policy.entry :=
  { Name := "c", Rules := "3", Type_ := "", Instance := { Address := "" },
    Description := "" }

/-- Concrete desired audit device `p1` at instance `a`. -/
def audit.fixD1 : audit.entry :=
  { Path := "p1", Type_ := "file", Description := "",
    Instance := { Address := "a" }, Options := [] }

/-- Concrete desired audit device `p2` at instance `a`. -/
def audit.fixD2 : audit.entry :=
  { Path := "p2", Type_ := "file", Description := "",
    Instance := { Address := "a" }, Options := [] }

/-- A remotely observed audit device at path `file`. -/
def api.fixFileAudit : api.Audit :=
  { Path := "file", Type_ := "file", Description := "", Options := [] }

/-! ### Helper lemmas about the diff engine -/

namespace vault

theorem DiffItems_written {α : Type} (key : α → String) (eqFn : α → α → Bool)
    (desired observed : List α) :
    (DiffItems key eqFn desired observed).1 =
      desired.filter (fun d => !(observed.any (fun o => key o == key d))) := rfl

theorem DiffItems_deleted {α : Type} (key : α → String) (eqFn : α → α → Bool)
    (desired observed : List α) :
    (DiffItems key eqFn desired observed).2.1 =
      observed.filter (fun o => !(desired.any (fun d => key d == key o))) := rfl

theorem DiffItems_updated {α : Type} (key : α → String) (eqFn : α → α → Bool)
    (desired observed : List α) :
    (DiffItems key eqFn desired observed).2.2 =
      desired.filter (fun d =>
        match observed.find? (fun o => key o == key d) with
        | some o => !(eqFn d o)
        | none => false) := rfl

theorem keyCount_eq_zero_of_not_mem {α : Type} {key : α → String} {k : String}
    {l : List α} (h : k ∉ l.map key) : keyCount key k l = 0 := by
  apply List.countP_eq_zero.mpr
  intro x hx hkx
  exact h (beq_iff_eq.mp hkx ▸ List.mem_map_of_mem key hx)

theorem keyCount_filter_zero {α : Type} {key : α → String} {k : String}
    (p : α → Bool) {l : List α} (h : keyCount key k l = 0) :
    keyCount key k (l.filter p) = 0 := by
  have hle : keyCount key k (l.filter p) ≤ keyCount key k l := by
    unfold keyCount
    rw [List.countP_filter]
    exact List.countP_mono_left (fun x _ hx => (Bool.and_eq_true _ _).mp hx |>.1)
  omega

theorem keyCount_filter_keep {α : Type} {key : α → String} {k : String}
    {p : α → Bool} {l : List α}
    (h : ∀ x ∈ l, (key x == k) = true → p x = true) :
    keyCount key k (l.filter p) = keyCount key k l := by
  unfold keyCount
  rw [List.countP_filter]
  apply List.countP_congr
  intro x hx
  constructor
  · intro hb
    exact ((Bool.and_eq_true _ _).mp hb).1
  · intro hb
    exact (Bool.and_eq_true _ _).mpr ⟨hb, h x hx hb⟩

theorem keyCount_filter_drop {α : Type} {key : α → String} {k : String}
    {p : α → Bool} {l : List α}
    (h : ∀ x ∈ l, (key x == k) = true → p x = false) :
    keyCount key k (l.filter p) = 0 := by
  unfold keyCount
  rw [List.countP_filter]
  apply List.countP_eq_zero.mpr
  intro x hx hb
  obtain ⟨h1, h2⟩ := (Bool.and_eq_true _ _).mp hb
  rw [h x hx h1] at h2
  cases h2

theorem keyCount_eq_one_of_nodup {α : Type} {key : α → String} {k : String}
    {l : List α} {x : α} (hnd : (l.map key).Nodup) (hx : x ∈ l)
    (hk : key x = k) : keyCount key k l = 1 := by
  induction l with
  | nil => cases hx
  | cons y t ih =>
    rw [List.map_cons, List.nodup_cons] at hnd
    unfold keyCount
    rw [List.countP_cons]
    rcases List.mem_cons.mp hx with rfl | hxt
    · have hz : keyCount key k t = 0 :=
        keyCount_eq_zero_of_not_mem (hk ▸ hnd.1)
      unfold keyCount at hz
      rw [hz, beq_iff_eq.mpr hk]
      simp
    · have hmem : key x ∈ t.map key := List.mem_map_of_mem key hxt
      have hy : (key y == k) = false := beq_eq_false_iff_ne.mpr
        (fun hyk => hnd.1 (by rw [hyk, ← hk]; exact hmem))
      have ht := ih hnd.2 hxt
      unfold keyCount at ht
      rw [ht, hy]
      simp

theorem keyCount_filter_unique {α : Type} {key : α → String} {k : String}
    (p : α → Bool) {l : List α} {x : α}
    (hnd : (l.map key).Nodup) (hx : x ∈ l) (hk : key x = k) :
    keyCount key k (l.filter p) = if p x then 1 else 0 := by
  unfold keyCount
  rw [List.countP_filter]
  induction l with
  | nil => cases hx
  | cons y t ih =>
    rw [List.map_cons, List.nodup_cons] at hnd
    rw [List.countP_cons]
    rcases List.mem_cons.mp hx with rfl | hxt
    · have hz : List.countP (fun v => (key v == k) && p v) t = 0 := by
        apply List.countP_eq_zero.mpr
        intro v hv hvp
        obtain ⟨hkv, _⟩ := (Bool.and_eq_true _ _).mp hvp
        have hvx : key v = key x := by rw [beq_iff_eq.mp hkv, hk]
        exact hnd.1 (hvx ▸ List.mem_map_of_mem key hv)
      rw [hz, beq_iff_eq.mpr hk]
      cases hp : p x <;> simp [hp]
    · have hmem : key x ∈ t.map key := List.mem_map_of_mem key hxt
      have hy : (key y == k) = false := beq_eq_false_iff_ne.mpr
        (fun hyk => hnd.1 (by rw [hyk, ← hk]; exact hmem))
      rw [hy]
      have ht := ih hnd.2 hxt
      rw [ht]
      simp

theorem find?_key_eq_some {α : Type} {key : α → String} {k : String}
    {l : List α} {x : α} (hnd : (l.map key).Nodup) (hx : x ∈ l)
    (hk : key x = k) : l.find? (fun o => key o == k) = some x := by
  induction l with
  | nil => cases hx
  | cons y t ih =>
    rw [List.map_cons, List.nodup_cons] at hnd
    rcases List.mem_cons.mp hx with rfl | hxt
    · exact List.find?_cons_of_pos _ (beq_iff_eq.mpr hk)
    · have hmem : key x ∈ t.map key := List.mem_map_of_mem key hxt
      have hy : (key y == k) = false := beq_eq_false_iff_ne.mpr
        (fun hyk => hnd.1 (by rw [hyk, ← hk]; exact hmem))
      rw [List.find?_cons_of_neg _ (by simp [hy]), ih hnd.2 hxt]

theorem any_key_iff_mem {α : Type} (key : α → String) (l : List α)
    (k : String) : (l.any (fun o => key o == k)) = true ↔ k ∈ l.map key := by
  simp only [List.any_eq_true, List.mem_map, beq_iff_eq]

end vault

/-! ### Claim C3 -/

/-- Claim C3: for all desired and observed input sequences with unique
keys, every key occurring in either input appears in exactly one of the
Diff Engine's toCreate (`.1`), toUpdate (`.2.2`), toDelete (`.2.1`)
outputs or is unchanged, never in two: a key only in observed appears
exactly once in toDelete, a key only in desired appears exactly once in
toCreate, and a key in both appears in toUpdate exactly when the matched
pair is not `Equals`, and never in toCreate or toDelete. -/
theorem diffItems_key_partition {α : Type} (key : α → String)
    (eqFn : α → α → Bool) (desired observed : List α) (k : String)
    (hd : (desired.map key).Nodup) (ho : (observed.map key).Nodup) :
    ((k ∈ observed.map key ∧ k ∉ desired.map key) →
      vault.keyCount key k (vault.DiffItems key eqFn desired observed).2.1 = 1 ∧
      vault.keyCount key k (vault.DiffItems key eqFn desired observed).1 = 0 ∧
      vault.keyCount key k (vault.DiffItems key eqFn desired observed).2.2 = 0) ∧
    ((k ∈ desired.map key ∧ k ∉ observed.map key) →
      vault.keyCount key k (vault.DiffItems key eqFn desired observed).1 = 1 ∧
      vault.keyCount key k (vault.DiffItems key eqFn desired observed).2.1 = 0 ∧
      vault.keyCount key k (vault.DiffItems key eqFn desired observed).2.2 = 0) ∧
    (∀ dd ∈ desired, key dd = k → ∀ oo ∈ observed, key oo = k →
      vault.keyCount key k (vault.DiffItems key eqFn desired observed).1 = 0 ∧
      vault.keyCount key k (vault.DiffItems key eqFn desired observed).2.1 = 0 ∧
      vault.keyCount key k (vault.DiffItems key eqFn desired observed).2.2 =
        (if eqFn dd oo then 0 else 1)) := by
  refine ⟨?_, ?_, ?_⟩
  · rintro ⟨hko, hkd⟩
    have hzd : vault.keyCount key k desired = 0 :=
      vault.keyCount_eq_zero_of_not_mem hkd
    refine ⟨?_, ?_, ?_⟩
    · rw [vault.DiffItems_deleted]
      rw [vault.keyCount_filter_keep ?keep]
      case keep =>
        intro x hx hkx
        have hxk : key x = k := beq_iff_eq.mp hkx
        have hany : (desired.any (fun d => key d == key x)) = false := by
          cases hb : desired.any (fun d => key d == key x) with
          | false => rfl
          | true =>
            rw [hxk] at hb
            exact absurd ((vault.any_key_iff_mem key desired k).mp hb) hkd
        rw [hany]
        rfl
      obtain ⟨oo, hoo, hkoo⟩ := List.mem_map.mp hko
      exact vault.keyCount_eq_one_of_nodup ho hoo hkoo
    · rw [vault.DiffItems_written]
      exact vault.keyCount_filter_zero _ hzd
    · rw [vault.DiffItems_updated]
      exact vault.keyCount_filter_zero _ hzd
  · rintro ⟨hkd, hko⟩
    have hzo : vault.keyCount key k observed = 0 :=
      vault.keyCount_eq_zero_of_not_mem hko
    refine ⟨?_, ?_, ?_⟩
    · rw [vault.DiffItems_written]
      rw [vault.keyCount_filter_keep ?keep]
      case keep =>
        intro x hx hkx
        have hxk : key x = k := beq_iff_eq.mp hkx
        have hany : (observed.any (fun o => key o == key x)) = false := by
          cases hb : observed.any (fun o => key o == key x) with
          | false => rfl
          | true =>
            rw [hxk] at hb
            exact absurd ((vault.any_key_iff_mem key observed k).mp hb) hko
        rw [hany]
        rfl
      obtain ⟨dd, hdd, hkdd⟩ := List.mem_map.mp hkd
      exact vault.keyCount_eq_one_of_nodup hd hdd hkdd
    · rw [vault.DiffItems_deleted]
      exact vault.keyCount_filter_zero _ hzo
    · rw [vault.DiffItems_updated]
      apply vault.keyCount_filter_drop
      intro x hx hkx
      have hxk : key x = k := beq_iff_eq.mp hkx
      have hfind : observed.find? (fun o => key o == key x) = none := by
        apply List.find?_eq_none.mpr
        intro o hoobs hb
        exact hko (hxk ▸ beq_iff_eq.mp hb ▸ List.mem_map_of_mem key hoobs)
      simp [hfind]
  · intro dd hdd hkdd oo hoo hkoo
    refine ⟨?_, ?_, ?_⟩
    · rw [vault.DiffItems_written]
      apply vault.keyCount_filter_drop
      intro x hx hkx
      have hxk : key x = k := beq_iff_eq.mp hkx
      have hany : (observed.any (fun o => key o == key x)) = true := by
        rw [hxk]
        exact (vault.any_key_iff_mem key observed k).mpr
          (List.mem_map.mpr ⟨oo, hoo, hkoo⟩)
      rw [hany]
      rfl
    · rw [vault.DiffItems_deleted]
      apply vault.keyCount_filter_drop
      intro x hx hkx
      have hxk : key x = k := beq_iff_eq.mp hkx
      have hany : (desired.any (fun d => key d == key x)) = true := by
        rw [hxk]
        exact (vault.any_key_iff_mem key desired k).mpr
          (List.mem_map.mpr ⟨dd, hdd, hkdd⟩)
      rw [hany]
      rfl
    · rw [vault.DiffItems_updated]
      rw [vault.keyCount_filter_unique _ hd hdd hkdd]
      have hfind : observed.find? (fun o => key o == key dd) = some oo := by
        rw [hkdd]
        exact vault.find?_key_eq_some ho hoo hkoo
      rw [hfind]
      cases heq : eqFn dd oo <;> simp [heq]

/-! ### Claim C9: bounded worker pool -/

namespace utils

theorem poolRun_le {N : Nat} : ∀ (ops : List PoolOp) (c c2 : Nat),
    c ≤ N → poolRun N c ops = some c2 → c2 ≤ N := by
  intro ops
  induction ops with
  | nil =>
    intro c c2 hc h
    cases h
    exact hc
  | cons op t ih =>
    intro c c2 hc h
    cases op with
    | acquire =>
      by_cases hlt : c < N
      · rw [poolRun, poolStep, if_pos hlt] at h
        exact ih _ _ (by omega) h
      · rw [poolRun, poolStep, if_neg hlt] at h
        cases h
    | release =>
      by_cases hpos : 0 < c
      · rw [poolRun, poolStep, if_pos hpos] at h
        exact ih _ _ (by omega) h
      · rw [poolRun, poolStep, if_neg hpos] at h
        cases h
    | awaitAll =>
      by_cases hz : c = 0
      · rw [poolRun, poolStep, if_pos (by simp [hz])] at h
        exact ih _ _ hc h
      · rw [poolRun, poolStep, if_neg (by simp [hz])] at h
        cases h

theorem poolRun_await {N : Nat} : ∀ (pre : List PoolOp) (c c2 : Nat),
    poolRun N c (pre ++ [PoolOp.awaitAll]) = some c2 →
    poolRun N c pre = some 0 := by
  intro pre
  induction pre with
  | nil =>
    intro c c2 h
    rw [List.nil_append, poolRun, poolStep] at h
    by_cases hz : c = 0
    · rw [poolRun, hz]
    · rw [if_neg (by simp [hz])] at h
      cases h
  | cons op t ih =>
    intro c c2 h
    rw [List.cons_append, poolRun] at h
    rw [poolRun]
    cases hs : poolStep N c op with
    | none => rw [hs] at h; cases h
    | some c3 =>
      rw [hs] at h
      exact ih _ _ h

end utils

/-- Claim C9: for every pool size and every schedule of pool operations
accepted by the bounded-pool semantics `utils.poolRun` starting from zero
held slots, at no point do more than `N` units simultaneously hold an
acquired slot (the held-slot count after any accepted prefix is at most
`N`), and `AwaitAll` does not return while an acquired slot remains
unreleased (a schedule extended with `awaitAll` completes only if the
prefix before it ends with zero held slots). -/
theorem bounded_pool_invariant :
    ∀ (N : Nat) (ops : List utils.PoolOp) (c : Nat),
      (utils.poolRun N 0 ops = some c → c ≤ N) ∧
      (utils.poolRun N 0 (ops ++ [utils.PoolOp.awaitAll]) = some c →
        utils.poolRun N 0 ops = some 0) := by
  intro N ops c
  constructor
  · intro h
    exact utils.poolRun_le ops 0 c (Nat.zero_le N) h
  · intro h
    exact utils.poolRun_await ops 0 c h

/-- Witness for C9: pool size 2, two acquires then two releases; the
bound and the await-only-at-zero property at a concrete schedule. -/
theorem bounded_pool_invariant_witness :
    (2 : Nat) ≤ 2 ∧
      utils.poolRun 2 0
        [utils.PoolOp.acquire, utils.PoolOp.acquire, utils.PoolOp.release,
         utils.PoolOp.release] = some 0 :=
  ⟨(bounded_pool_invariant 2 [utils.PoolOp.acquire, utils.PoolOp.acquire] 2).1 rfl,
   (bounded_pool_invariant 2
      [utils.PoolOp.acquire, utils.PoolOp.acquire, utils.PoolOp.release,
       utils.PoolOp.release] 0).2 rfl⟩

/-! ### Claims C6, C7, C8 -/

/-- Claim C6: each object-kind module's `Apply` is process-fatal exactly
on a configuration-decode failure: the result is `none` (the embedded
`log.Fatal`) iff the decoded input is an error, for every dry-run flag,
address list, and remote oracle — in particular no remote-call failure
(audit list failure or per-call error flags) makes the result fatal. -/
theorem decode_failure_fatal_only :
    ∀ (dse : Except String (List secretsengine.entry))
      (dpo : Except String (List policy.entry))
      (dau : Except String (List audit.entry))
      (dryRun : Bool) (addrs : List String)
      (ls : String → List (String × api.MountOutput))
      (lp : String → List String) (gp : String → String → String)
      (lsa : String → Option (List api.Audit))
      (en dis : String → String → Bool),
      (secretsengine.Apply dse dryRun addrs ls).isNone = decodeFailed dse ∧
      (policy.Apply dpo dryRun addrs lp gp).isNone = decodeFailed dpo ∧
      (audit.Apply dau dryRun addrs lsa en dis).isNone = decodeFailed dau := by
  intro dse dpo dau dryRun addrs ls lp gp lsa en dis
  refine ⟨?_, ?_, ?_⟩
  · cases dse <;> rfl
  · cases dpo <;> rfl
  · cases dau <;> rfl

/-- Claim C7: for every reconcilable item of each concrete kind and every
dynamic value that is not of that kind's concrete entry type, `Equals`
returns `false` (the type assertion fails and the function totally
returns, no panic). -/
theorem equals_cross_kind_false :
    (∀ (e : secretsengine.entry) (i : vault.Item),
        vault.Item.isSecretsEngine i = false → e.Equals i = false) ∧
    (∀ (e : policy.entry) (i : vault.Item),
        vault.Item.isPolicy i = false → e.Equals i = false) ∧
    (∀ (e : audit.entry) (i : vault.Item),
        vault.Item.isAudit i = false → e.Equals i = false) := by
  refine ⟨?_, ?_, ?_⟩ <;> intro e i h <;> cases i <;>
    simp_all [vault.Item.isSecretsEngine, vault.Item.isPolicy,
      vault.Item.isAudit, secretsengine.entry.Equals, policy.entry.Equals,
      audit.entry.Equals]

/-- Witness for C7 at concrete entries and a non-entry dynamic value. -/
theorem equals_cross_kind_false_witness :
    secretsengine.entry.Equals secretsengine.fixE (vault.Item.other "v") = false ∧
    policy.entry.Equals policy.fixD (vault.Item.other "v") = false ∧
    audit.entry.Equals audit.fixD1 (vault.Item.other "v") = false :=
  ⟨equals_cross_kind_false.1 secretsengine.fixE (vault.Item.other "v") rfl,
   equals_cross_kind_false.2.1 policy.fixD (vault.Item.other "v") rfl,
   equals_cross_kind_false.2.2 audit.fixD1 (vault.Item.other "v") rfl⟩

/-- Claim C8: for policy entries, `Equals` holds iff the names are equal
and the rules bodies are byte-for-byte equal; hence two policies with the
same key are unchanged iff their body text is identical. -/
theorem policy_equals_name_rules :
    ∀ d o : policy.entry,
      (d.Equals (vault.Item.policy o) = true ↔
        d.Name = o.Name ∧ d.Rules = o.Rules) ∧
      (d.Name = o.Name →
        (d.Equals (vault.Item.policy o) = true ↔ d.Rules = o.Rules)) := by
  intro d o
  constructor
  · simp [policy.entry.Equals]
  · intro h
    simp [policy.entry.Equals, h]

/-- Witness for C8: same name, different bodies, hence not `Equals`. -/
theorem policy_equals_name_rules_witness :
    policy.fixD.Name = policy.fixO.Name ∧
      (policy.fixD.Equals (vault.Item.policy policy.fixO) = true ↔
        policy.fixD.Rules = policy.fixO.Rules) :=
  ⟨rfl, (policy_equals_name_rules policy.fixD policy.fixO).2 rfl⟩

/-! ### Helper lemmas about the module traces -/

theorem mem_foldl_dedup :
    ∀ (xs acc : List String) (a : String),
      a ∈ xs.foldl (fun acc b => if b ∈ acc then acc else acc ++ [b]) acc →
      a ∈ acc ∨ a ∈ xs := by
  intro xs
  induction xs with
  | nil =>
    intro acc a hh
    exact Or.inl hh
  | cons b t ih =>
    intro acc a hh
    rw [List.foldl_cons] at hh
    rcases ih _ _ hh with h3 | h3
    · by_cases hb : b ∈ acc
      · rw [if_pos hb] at h3
        exact Or.inl h3
      · rw [if_neg hb] at h3
        rcases List.mem_append.mp h3 with h4 | h4
        · exact Or.inl h4
        · rw [List.mem_singleton.mp h4]
          exact Or.inr (List.mem_cons_self _ _)
    · exact Or.inr (List.mem_cons_of_mem _ h3)

theorem mem_of_mem_firstOccurrences {xs : List String} {a : String}
    (h : a ∈ firstOccurrences xs) : a ∈ xs := by
  rcases mem_foldl_dedup xs [] a h with h3 | h3
  · cases h3
  · exact h3

namespace secretsengine

theorem se_fetchAddrs_sub {entries : List entry} {a : String}
    (h : a ∈ fetchAddrs entries) : ∃ e ∈ entries, e.Instance.Address = a := by
  obtain ⟨e, he, hea⟩ := List.mem_map.mp (mem_of_mem_firstOccurrences h)
  exact ⟨e, he, hea⟩

theorem se_reconcile_addr {desired observed : List entry} {dryRun : Bool}
    {b : String} {ev : Event} (h : ev ∈ reconcileInstance desired observed dryRun b) :
    ev.addr = b := by
  simp only [reconcileInstance] at h
  cases dryRun with
  | true => simp at h
  | false =>
    simp only [Bool.false_eq_true, if_false] at h
    rcases List.mem_append.mp h with h1 | h1
    · rcases List.mem_append.mp h1 with h2 | h2
      · obtain ⟨e, _, rfl⟩ := List.mem_map.mp h2
        rfl
      · obtain ⟨e, _, rfl⟩ := List.mem_map.mp h2
        rfl
    · obtain ⟨e, _, rfl⟩ := List.mem_map.mp h1
      rfl

theorem se_reconcile_empty_of_empty {dryRun : Bool} {b : String} :
    reconcileInstance [] [] dryRun b = [] := by
  cases dryRun <;> rfl

end secretsengine

namespace policy

theorem pol_fetchAddrs_sub {entries : List entry} {a : String}
    (h : a ∈ fetchAddrs entries) : ∃ e ∈ entries, e.Instance.Address = a := by
  obtain ⟨e, he, hea⟩ := List.mem_map.mp (mem_of_mem_firstOccurrences h)
  exact ⟨e, he, hea⟩

theorem pol_reconcile_addr {desired observed : List entry} {dryRun : Bool}
    {b : String} {ev : Event} (h : ev ∈ reconcileInstance desired observed dryRun b) :
    ev.addr = b := by
  simp only [reconcileInstance] at h
  cases dryRun with
  | true => simp at h
  | false =>
    simp only [Bool.false_eq_true, if_false] at h
    rcases List.mem_append.mp h with h1 | h1
    · obtain ⟨e, _, rfl⟩ := List.mem_map.mp h1
      rfl
    · obtain ⟨e, _, rfl⟩ := List.mem_map.mp h1
      rfl

theorem pol_reconcile_empty_of_empty {dryRun : Bool} {b : String} :
    reconcileInstance [] [] dryRun b = [] := by
  cases dryRun <;> rfl

end policy

/-! ### Claim C2 -/

/-- Claim C2: with `dryRun = true`, every module's `Apply` performs no
mutation of any instance: the trace of issued calls contains no enable,
put, update, disable, or delete — only the observed-state reads (and, for
the audit module, registry marks on fetch failure). -/
theorem dry_run_no_mutation :
    (∀ (entries : List secretsengine.entry) (addrs : List String)
        (ls : String → List (String × api.MountOutput)),
      (secretsengine.applyEntries entries true addrs ls).filter
        secretsengine.Event.isMutation = []) ∧
    (∀ (entries : List policy.entry) (addrs : List String)
        (lp : String → List String) (gp : String → String → String),
      (policy.applyEntries entries true addrs lp gp).filter
        policy.Event.isMutation = []) ∧
    (∀ (entries : List audit.entry) (addrs : List String)
        (lsa : String → Option (List api.Audit))
        (en dis : String → String → Bool),
      (audit.applyEntries entries true addrs lsa en dis).filter
        audit.Event.isMutation = []) := by
  refine ⟨?_, ?_, ?_⟩
  · intro entries addrs ls
    apply List.filter_eq_nil_iff.mpr
    intro ev hev
    simp only [secretsengine.applyEntries] at hev
    rcases List.mem_append.mp hev with h1 | h1
    · obtain ⟨b, _, rfl⟩ := List.mem_map.mp h1
      simp [secretsengine.Event.isMutation]
    · obtain ⟨lst, hlst, hevl⟩ := List.mem_flatten.mp h1
      obtain ⟨b, _, rfl⟩ := List.mem_map.mp hlst
      rw [secretsengine.reconcileInstance] at hevl
      simp at hevl
  · intro entries addrs lp gp
    apply List.filter_eq_nil_iff.mpr
    intro ev hev
    simp only [policy.applyEntries] at hev
    rcases List.mem_append.mp hev with h1 | h1
    · rcases List.mem_append.mp h1 with h2 | h2
      · obtain ⟨b, _, rfl⟩ := List.mem_map.mp h2
        simp [policy.Event.isMutation]
      · obtain ⟨lst, hlst, hevl⟩ := List.mem_flatten.mp h2
        obtain ⟨b, _, rfl⟩ := List.mem_map.mp hlst
        obtain ⟨n, _, rfl⟩ := List.mem_map.mp hevl
        simp [policy.Event.isMutation]
    · obtain ⟨lst, hlst, hevl⟩ := List.mem_flatten.mp h1
      obtain ⟨b, _, rfl⟩ := List.mem_map.mp hlst
      rw [policy.reconcileInstance] at hevl
      simp at hevl
  · intro entries addrs lsa en dis
    apply List.filter_eq_nil_iff.mpr
    intro ev hev
    simp only [audit.applyEntries] at hev
    obtain ⟨lst, hlst, hevl⟩ := List.mem_flatten.mp hev
    obtain ⟨b, _, rfl⟩ := List.mem_map.mp hlst
    simp only [audit.applyInstance] at hevl
    rcases List.mem_cons.mp hevl with rfl | h2
    · simp [audit.Event.isMutation]
    · cases hla : lsa b with
      | none =>
        rw [hla] at h2
        rw [List.mem_singleton.mp h2]
        simp [audit.Event.isMutation]
      | some devices =>
        rw [hla] at h2
        simp at h2

/-! ### Claim C10 -/

/-- Claim C10: for every instance address with no desired entries of the
module's kind, the secretsengine and policy modules never fetch that
instance's observed items and issue no create, update, or delete against
it: every event in their traces targets a different address (the
reconcile iteration for such an address diffs two empty lists and is
empty). -/
theorem untouched_instance_frame :
    (∀ (entries : List secretsengine.entry) (dryRun : Bool)
        (addrs : List String) (ls : String → List (String × api.MountOutput))
        (a : String),
      (∀ e ∈ entries, e.Instance.Address ≠ a) →
      ∀ ev ∈ secretsengine.applyEntries entries dryRun addrs ls,
        secretsengine.Event.addr ev ≠ a) ∧
    (∀ (entries : List policy.entry) (dryRun : Bool) (addrs : List String)
        (lp : String → List String) (gp : String → String → String)
        (a : String),
      (∀ e ∈ entries, e.Instance.Address ≠ a) →
      ∀ ev ∈ policy.applyEntries entries dryRun addrs lp gp,
        policy.Event.addr ev ≠ a) := by
  constructor
  · intro entries dryRun addrs ls a ha ev hev
    have hafetch : a ∉ secretsengine.fetchAddrs entries := by
      intro hmem
      obtain ⟨e, he, hea⟩ := secretsengine.se_fetchAddrs_sub hmem
      exact ha e he hea
    simp only [secretsengine.applyEntries] at hev
    rcases List.mem_append.mp hev with h1 | h1
    · obtain ⟨b, hb, rfl⟩ := List.mem_map.mp h1
      simp only [secretsengine.Event.addr]
      intro hba
      exact hafetch (hba ▸ hb)
    · obtain ⟨lst, hlst, hevl⟩ := List.mem_flatten.mp h1
      obtain ⟨b, hb, rfl⟩ := List.mem_map.mp hlst
      by_cases hba : b = a
      · subst hba
        have hdes : secretsengine.desiredFor entries b = [] :=
          List.filter_eq_nil_iff.mpr (fun e he => by
            simp only [beq_iff_eq]
            exact ha e he)
        have hex : secretsengine.existingFor
            (secretsengine.fetchAddrs entries) ls b = [] := by
          rw [secretsengine.existingFor, if_neg hafetch]
        rw [hdes, hex, secretsengine.se_reconcile_empty_of_empty] at hevl
        cases hevl
      · rw [secretsengine.se_reconcile_addr hevl]
        exact hba
  · intro entries dryRun addrs lp gp a ha ev hev
    have hafetch : a ∉ policy.fetchAddrs entries := by
      intro hmem
      obtain ⟨e, he, hea⟩ := policy.pol_fetchAddrs_sub hmem
      exact ha e he hea
    simp only [policy.applyEntries] at hev
    rcases List.mem_append.mp hev with h1 | h1
    · rcases List.mem_append.mp h1 with h2 | h2
      · obtain ⟨b, hb, rfl⟩ := List.mem_map.mp h2
        simp only [policy.Event.addr]
        intro hba
        exact hafetch (hba ▸ hb)
      · obtain ⟨lst, hlst, hevl⟩ := List.mem_flatten.mp h2
        obtain ⟨b, hb, rfl⟩ := List.mem_map.mp hlst
        obtain ⟨n, hn, rfl⟩ := List.mem_map.mp hevl
        simp only [policy.Event.addr]
        intro hba
        exact hafetch (hba ▸ hb)
    · obtain ⟨lst, hlst, hevl⟩ := List.mem_flatten.mp h1
      obtain ⟨b, hb, rfl⟩ := List.mem_map.mp hlst
      by_cases hba : b = a
      · subst hba
        have hdes : policy.desiredFor entries b = [] :=
          List.filter_eq_nil_iff.mpr (fun e he => by
            simp only [beq_iff_eq]
            exact ha e he)
        have hex : policy.existingFor (policy.fetchAddrs entries) lp gp b = [] := by
          rw [policy.existingFor, if_neg hafetch]
        rw [hdes, hex, policy.pol_reconcile_empty_of_empty] at hevl
        cases hevl
      · rw [policy.pol_reconcile_addr hevl]
        exact hba

/-- Witness for C10: one desired engine at instance `a`; with configured
addresses `[a, b]`, the dry-run trace touches only `a`. -/
theorem untouched_instance_frame_witness :
    (∀ e ∈ [secretsengine.fixE], e.Instance.Address ≠ "b") ∧
      secretsengine.Event.addr
        (secretsengine.Event.listSecretsEngines "a") ≠ "b" :=
  ⟨by decide,
   untouched_instance_frame.1 [secretsengine.fixE] true ["a", "b"]
     (fun _ => []) "b" (by decide)
     (secretsengine.Event.listSecretsEngines "a") (by decide)⟩

/-! ### Claim C1 -/

/-- Claim C1 (amended): in live mode the secretsengine module never issues
a disable for a default mount path and the policy module never issues a
delete for a default policy name; the audit module applies no
protected-object filter at all and issues a disable for every item in its
toDelete output. -/
theorem protected_objects_delete_filter :
    (∀ (entries : List secretsengine.entry) (dryRun : Bool)
        (addrs : List String) (ls : String → List (String × api.MountOutput))
        (b p : String),
      secretsengine.Event.disableSecretsEngine b p ∈
          secretsengine.applyEntries entries dryRun addrs ls →
        secretsengine.isDefaultMount p = false) ∧
    (∀ (entries : List policy.entry) (dryRun : Bool) (addrs : List String)
        (lp : String → List String) (gp : String → String → String)
        (b n : String),
      policy.Event.deleteVaultPolicy b n ∈
          policy.applyEntries entries dryRun addrs lp gp →
        policy.isDefaultPolicy n = false) ∧
    (∀ (desired : List audit.entry) (devices : List api.Audit) (a : String)
        (en dis : String → String → Bool),
      ∀ e ∈ (audit.diffFor desired (audit.existingOf devices)).2.1,
        audit.Event.disableAuditDevice a e.Path ∈
          audit.applyInstance desired false a (fun _ => some devices) en dis) := by
  refine ⟨?_, ?_, ?_⟩
  · intro entries dryRun addrs ls b p hev
    simp only [secretsengine.applyEntries] at hev
    rcases List.mem_append.mp hev with h1 | h1
    · obtain ⟨c, _, heq⟩ := List.mem_map.mp h1
      simp at heq
    · obtain ⟨lst, hlst, hevl⟩ := List.mem_flatten.mp h1
      obtain ⟨c, _, rfl⟩ := List.mem_map.mp hlst
      simp only [secretsengine.reconcileInstance] at hevl
      cases dryRun with
      | true => simp at hevl
      | false =>
        simp only [Bool.false_eq_true, if_false] at hevl
        rcases List.mem_append.mp hevl with h2 | h2
        · rcases List.mem_append.mp h2 with h3 | h3
          · obtain ⟨e, _, heq⟩ := List.mem_map.mp h3
            simp at heq
          · obtain ⟨e, _, heq⟩ := List.mem_map.mp h3
            simp at heq
        · obtain ⟨e, hef, heq⟩ := List.mem_map.mp h2
          obtain ⟨_, he2⟩ := List.mem_filter.mp hef
          rw [secretsengine.Event.disableSecretsEngine.injEq] at heq
          obtain ⟨hcb, hp⟩ := heq
          have hfalse : secretsengine.isDefaultMount e.Path = false := by
            cases hdm : secretsengine.isDefaultMount e.Path with
            | false => rfl
            | true => rw [hdm] at he2; cases he2
          exact hp ▸ hfalse
  · intro entries dryRun addrs lp gp b n hev
    simp only [policy.applyEntries] at hev
    rcases List.mem_append.mp hev with h1 | h1
    · rcases List.mem_append.mp h1 with h2 | h2
      · obtain ⟨c, _, heq⟩ := List.mem_map.mp h2
        simp at heq
      · obtain ⟨lst, hlst, hevl⟩ := List.mem_flatten.mp h2
        obtain ⟨c, _, rfl⟩ := List.mem_map.mp hlst
        obtain ⟨m, _, heq⟩ := List.mem_map.mp hevl
        simp at heq
    · obtain ⟨lst, hlst, hevl⟩ := List.mem_flatten.mp h1
      obtain ⟨c, _, rfl⟩ := List.mem_map.mp hlst
      simp only [policy.reconcileInstance] at hevl
      cases dryRun with
      | true => simp at hevl
      | false =>
        simp only [Bool.false_eq_true, if_false] at hevl
        rcases List.mem_append.mp hevl with h2 | h2
        · obtain ⟨e, _, heq⟩ := List.mem_map.mp h2
          simp at heq
        · obtain ⟨e, hef, heq⟩ := List.mem_map.mp h2
          obtain ⟨_, he2⟩ := List.mem_filter.mp hef
          rw [policy.Event.deleteVaultPolicy.injEq] at heq
          obtain ⟨hcb, hn⟩ := heq
          have hfalse : policy.isDefaultPolicy e.Name = false := by
            cases hdm : policy.isDefaultPolicy e.Name with
            | false => rfl
            | true => rw [hdm] at he2; cases he2
          exact hn ▸ hfalse
  · intro desired devices a en dis e he
    simp only [audit.applyInstance]
    apply List.mem_cons_of_mem
    apply List.mem_append_right
    apply List.mem_flatten.mpr
    refine ⟨audit.disableSeg dis a e, List.mem_map_of_mem _ he, ?_⟩
    exact List.mem_cons_self _ _

/-- Counterexample for C1 as stated: the audit module issues a disable for
every item in its toDelete output, so under any classification that marks
the observed device `file` as built-in, the built-in device is deleted:
with no desired audit devices and one observed device at path `file`, the
live trace contains `DisableAuditDevice(a, file)`. -/
theorem audit_delete_unfiltered_cex :
    ¬ (∀ p : String, (p == "file") = true →
        audit.Event.disableAuditDevice "a" p ∉
          audit.applyEntries [] false ["a"]
            (fun _ => some [api.fixFileAudit])
            (fun _ _ => false) (fun _ _ => false)) := by
  intro h
  exact h "file" rfl (by decide)

/-- Witness for C1 (amended): a live run whose toDelete holds the observed
engine `kv/`; the disable it issues satisfies the default-mount filter. -/
theorem protected_objects_delete_filter_witness :
    secretsengine.isDefaultMount "kv/" = false :=
  protected_objects_delete_filter.1 [secretsengine.fixE] false ["a"]
    (fun _ => [("kv/", { Type_ := "kv", Description := "", Options := [] })])
    "a" "kv/" (by decide)

/-! ### Claim C4 -/

/-- Claim C4 (amended): in the audit module, a fetch failure for an
instance marks it invalid and moves to the next instance with no further
remote call against it; an apply failure marks the instance invalid but
continues with the next operation, so the remaining enables and all
disables are still attempted against the failed instance within the same
pass (the audit loop's `continue` advances the item loop, not the
instance loop; exclusion of the instance only takes effect for later
modules). -/
theorem audit_failure_isolation_amended :
    (∀ (desired : List audit.entry) (dryRun : Bool) (a : String)
        (en dis : String → String → Bool),
      audit.applyInstance desired dryRun a (fun _ => none) en dis =
        [audit.Event.listAuditDevices a, audit.Event.addInvalid a]) ∧
    (∀ (desired : List audit.entry) (devices : List api.Audit) (a : String)
        (en dis : String → String → Bool),
      audit.applyInstance desired false a (fun _ => some devices) en dis =
        audit.Event.listAuditDevices a ::
          (((audit.diffFor desired (audit.existingOf devices)).1.map
              (audit.enableSeg en a)).flatten ++
            ((audit.diffFor desired (audit.existingOf devices)).2.1.map
              (audit.disableSeg dis a)).flatten)) ∧
    (∀ (desired : List audit.entry) (devices : List api.Audit) (a : String)
        (en dis : String → String → Bool),
      ∀ e ∈ (audit.diffFor desired (audit.existingOf devices)).1,
        audit.Event.enableAuditDevice a e.Path e.Type_ e.Description e.Options ∈
            audit.applyInstance desired false a (fun _ => some devices) en dis ∧
          (en a e.Path = true →
            audit.Event.addInvalid a ∈
              audit.applyInstance desired false a (fun _ => some devices) en dis)) := by
  refine ⟨?_, ?_, ?_⟩
  · intro desired dryRun a en dis
    rfl
  · intro desired devices a en dis
    rfl
  · intro desired devices a en dis e he
    constructor
    · simp only [audit.applyInstance]
      apply List.mem_cons_of_mem
      apply List.mem_append_left
      apply List.mem_flatten.mpr
      refine ⟨audit.enableSeg en a e, List.mem_map_of_mem _ he, ?_⟩
      exact List.mem_cons_self _ _
    · intro hfail
      simp only [audit.applyInstance]
      apply List.mem_cons_of_mem
      apply List.mem_append_left
      apply List.mem_flatten.mpr
      refine ⟨audit.enableSeg en a e, List.mem_map_of_mem _ he, ?_⟩
      simp only [audit.enableSeg]
      apply List.mem_cons_of_mem
      simp [hfail]

/-- Counterexample for C4 as stated: two desired audit devices at
instance `a`, none observed; enabling `p1` fails. The module marks `a`
invalid and then still issues the enable for `p2` against `a` in the same
pass, so it does not continue with the next instance after the failure. -/
theorem audit_failure_continue_cex :
    audit.applyEntries [audit.fixD1, audit.fixD2] false ["a"]
        (fun _ => some []) (fun _ p => p == "p1") (fun _ _ => false) =
      [audit.Event.listAuditDevices "a",
       audit.Event.enableAuditDevice "a" "p1" "file" "" [],
       audit.Event.addInvalid "a",
       audit.Event.enableAuditDevice "a" "p2" "file" "" []] := by
  decide

/-- Witness for C4 (amended): concrete failing enable. -/
theorem audit_failure_isolation_amended_witness :
    audit.fixD1 ∈ (audit.diffFor [audit.fixD1] (audit.existingOf [])).1 ∧
      audit.Event.addInvalid "a" ∈
        audit.applyInstance [audit.fixD1] false "a" (fun _ => some [])
          (fun _ _ => true) (fun _ _ => false) :=
  ⟨by decide,
   (audit_failure_isolation_amended.2.2 [audit.fixD1] [] "a"
      (fun _ _ => true) (fun _ _ => false) audit.fixD1 (by decide)).2 rfl⟩

/-! ### Claim C5 -/

/-- Claim C5 (amended): in live mode the secretsengine module applies its
operations in the order creates, then updates, then deletes, and applies
every to-update item as an update; the policy and audit modules apply
creates then deletes only, discarding the Diff Engine's to-update
component (`toBeWritten, toBeDeleted, _ := vault.DiffItems(...)`), so
their to-update items produce no call at all. -/
theorem live_apply_order_amended :
    (∀ (desired observed : List secretsengine.entry) (a : String),
      secretsengine.reconcileInstance desired observed false a =
        (secretsengine.diffFor desired observed).1.map (fun e =>
            secretsengine.Event.enableSecretsEngine a e.Path e.Type_
              e.Description e.Options) ++
          (secretsengine.diffFor desired observed).2.2.map (fun e =>
            secretsengine.Event.updateSecretsEngine a e.Path e.Description) ++
          ((secretsengine.diffFor desired observed).2.1.filter (fun e =>
              !secretsengine.isDefaultMount e.Path)).map (fun e =>
            secretsengine.Event.disableSecretsEngine a e.Path)) ∧
    (∀ (desired observed : List policy.entry) (a : String),
      policy.reconcileInstance desired observed false a =
        (policy.diffFor desired observed).1.map (fun e =>
            policy.Event.putVaultPolicy a e.Name e.Rules) ++
          ((policy.diffFor desired observed).2.1.filter (fun e =>
              !policy.isDefaultPolicy e.Name)).map (fun e =>
            policy.Event.deleteVaultPolicy a e.Name)) ∧
    (∀ (desired : List audit.entry) (devices : List api.Audit) (a : String)
        (en dis : String → String → Bool),
      audit.applyInstance desired false a (fun _ => some devices) en dis =
        audit.Event.listAuditDevices a ::
          (((audit.diffFor desired (audit.existingOf devices)).1.map
              (audit.enableSeg en a)).flatten ++
            ((audit.diffFor desired (audit.existingOf devices)).2.1.map
              (audit.disableSeg dis a)).flatten)) := by
  refine ⟨?_, ?_, ?_⟩
  · intro desired observed a
    rfl
  · intro desired observed a
    rfl
  · intro desired devices a en dis
    rfl

/-- Counterexample for C5 as stated: policy `p` exists on instance `a`
with body `r2` while the desired body is `r1`; the Diff Engine classifies
it as to-update, but the policy module's live trace contains only the
list and get reads — no put is ever issued for the changed policy. -/
theorem policy_update_discarded_cex :
    policy.applyEntries [policy.fixD] false ["a"] (fun _ => ["p"])
        (fun _ _ => "r2") =
      [policy.Event.listVaultPolicies "a",
       policy.Event.getVaultPolicy "a" "p"] ∧
      (policy.diffFor [policy.fixD] [policy.fixO]).2.2 = [policy.fixD] := by
  constructor
  · decide
  · decide

/-- Witness for C3 at the spec's concrete scenario: desired policies
`a, b`, observed `b (different body), c`; the key `c` appears exactly once
in toDelete and nowhere else. -/
theorem diffItems_key_partition_witness :
    ([policy.fixA, policy.fixB].map policy.entry.Key).Nodup ∧
      ([policy.fixB9, policy.fixC].map policy.entry.Key).Nodup ∧
      (vault.keyCount policy.entry.Key "c"
          (vault.DiffItems policy.entry.Key
            (fun d o => d.Equals (vault.Item.policy o))
            [policy.fixA, policy.fixB] [policy.fixB9, policy.fixC]).2.1 = 1 ∧
        vault.keyCount policy.entry.Key "c"
          (vault.DiffItems policy.entry.Key
            (fun d o => d.Equals (vault.Item.policy o))
            [policy.fixA, policy.fixB] [policy.fixB9, policy.fixC]).1 = 0 ∧
        vault.keyCount policy.entry.Key "c"
          (vault.DiffItems policy.entry.Key
            (fun d o => d.Equals (vault.Item.policy o))
            [policy.fixA, policy.fixB] [policy.fixB9, policy.fixC]).2.2 = 0) :=
  ⟨by decide, by decide,
   (diffItems_key_partition policy.entry.Key
      (fun d o => d.Equals (vault.Item.policy o))
      [policy.fixA, policy.fixB] [policy.fixB9, policy.fixC] "c"
      (by decide) (by decide)).1 ⟨by decide, by decide⟩⟩
